import Mathlib

/-!
Shallow embedding of `item-nonresponse-demo.ipynb`.

The notebook operates on a pandas DataFrame with rows indexed `0 .. n-1` and
named, rational-valued columns.  Missingness is tracked by separate 0/1
indicator columns; the stored data columns themselves are never mutated.

numpy's global random generator is modelled as a state `Rng = (seed, step)`.
`np.random.seed s` replaces the whole state by `(s, 0)`; each draw is a
deterministic function of the seed, the sampling weights and the step counter,
and increments the counter.  Concretely the `step`-th draw from a pool of
candidate rows `l` (the rows with positive weight, or all rows for unweighted
sampling) is modelled as `l[(seed + step) % l.length]`: a deterministic stand-in
for numpy's pseudo-random choice that, like the real sampler, only ever returns
candidate rows and is a pure function of seed and step.

Python exceptions and nontermination are modelled with `Except PyError`:
pandas raises on negative weights and on all-zero weights, Python raises
`UnboundLocalError` when `create_mar_column`/`create_nmar_column` are called
with an unsupported method string, and the resample-until-k-distinct `while`
loop of the generators is run on fuel, `nonTermination` marking fuel
exhaustion (lemmas below show the outcome is the same for every fuel).
-/

/-- Error outcomes of the notebook functions: pandas' `ValueError` for a
negative weight vector, pandas' `ValueError` for weights summing to zero,
Python's `UnboundLocalError` for an unsupported method string, divergence
of the resampling `while` loop, and sklearn's `ValueError` when
`model.predict` receives a row whose feature count differs from the
`n_features_in_` recorded at fit time. -/
inductive PyError where
  | negativeWeights
  | zeroWeights
  | unboundLocal
  | nonTermination
  | featureMismatch
deriving DecidableEq, Repr

/-- Global numpy random generator state: current seed and draw counter. -/
def Rng : Type := ℕ × ℕ

/-- A pandas DataFrame: a row count and named rational-valued columns. -/
structure DataFrame where
  nRows : ℕ
  cols : List (String × List ℚ)
deriving DecidableEq, Repr

/-- Column lookup, `df[c]`. -/
def DataFrame.col (df : DataFrame) (c : String) : List ℚ :=
  (df.cols.lookup c).getD []

/-- Scalar cell access, `df.loc[i, c]`. -/
def DataFrame.cell (df : DataFrame) (i : ℕ) (c : String) : ℚ :=
  (df.col c).getD i 0

/-- Python 3 `round` on an exact rational: round half to even. -/
def pyRound (q : ℚ) : ℤ :=
  let f := Rat.floor q
  let r := q - f
  if r < 1/2 then f
  else if 1/2 < r then f + 1
  else if f % 2 = 0 then f else f + 1

/-- Requested number of missing rows, `round(p_missing * df.shape[0])`,
clamped at zero exactly as Python's `range` over a negative bound is empty. -/
def missCount (p : ℚ) (n : ℕ) : ℕ :=
  (pyRound (p * n)).toNat

/-- Deterministic model of one pseudo-random draw from candidate pool `l`. -/
def cyc (l : List ℕ) (seed step : ℕ) : ℕ :=
  l.getD ((seed + step) % l.length) 0

/-- Indices of the rows with strictly positive weight: the rows that pandas
weighted sampling can return. -/
def posIdx (w : List ℚ) : List ℕ :=
  (List.range w.length).filter (fun i => 0 < w.getD i 0)

/-- One call of `df.sample(n = 1)` (unweighted): a uniform pseudo-random row. -/
def uniformDrawOne (seed n step : ℕ) : Except PyError ℕ :=
  .ok (cyc (List.range n) seed step)

/-- One call of `df.sample(n = 1, weights = w)`: pandas raises on a negative
weight, raises when the weights sum to zero, and otherwise returns a
positive-weight row. -/
def weightedDrawOne (seed : ℕ) (w : List ℚ) (step : ℕ) : Except PyError ℕ :=
  if w.any (fun a => a < 0) then .error .negativeWeights
  else if w.sum = 0 then .error .zeroWeights
  else .ok (cyc (posIdx w) seed step)

/-- The `while len(set(indices)) < k: indices.append(draw())` loop, on fuel.
`acc.toFinset.card` is exactly `len(set(acc))`; the draw counter continues
from `acc.length` because every earlier draw appended one element. -/
def resampleLoop (d : ℕ → Except PyError ℕ) (k : ℕ) :
    ℕ → List ℕ → Except PyError (List ℕ)
  | 0, acc =>
    if k ≤ acc.toFinset.card then .ok acc else .error .nonTermination
  | fuel+1, acc =>
    if k ≤ acc.toFinset.card then .ok acc
    else
      match d acc.length with
      | .error e => .error e
      | .ok i => resampleLoop d k fuel (acc ++ [i])

/-- Sequencing of the draws of a list comprehension: the first raising draw
propagates its exception. -/
def drawSeq (d : ℕ → Except PyError ℕ) : List ℕ → Except PyError (List ℕ)
  | [] => .ok []
  | s :: rest =>
    match d s with
    | .error e => .error e
    | .ok i =>
      match drawSeq d rest with
      | .error e => .error e
      | .ok l => .ok (i :: l)

/-- The generators' shared sampling recipe: the initial comprehension
`[draw() for i in range(k)]` followed by the resampling `while` loop. -/
def sampleKDistinct (d : ℕ → Except PyError ℕ) (k fuel : ℕ) :
    Except PyError (List ℕ) :=
  match drawSeq d (List.range k) with
  | .error e => .error e
  | .ok init => resampleLoop d k fuel init

/-- The returned indicator column `[1 if i in indices else 0 for i in range(n)]`. -/
def indicatorColumn (n : ℕ) (idx : List ℕ) : List ℕ :=
  (List.range n).map (fun i => if i ∈ idx then 1 else 0)

/-- Method strings of the notebook. -/
def linearS : String := "linear"

/-- Method string for the quadratic weighting mode. -/
def quadraticS : String := "quadratic"

/-- Method string selecting `LogisticRegression`. -/
def logisticS : String := "logistic"

/-- Notebook function `create_mcar_column`.  `np.random.seed(random_state)`
discards the incoming global generator state `g`, so the draws depend only on
`random_state`; the `missing_column` argument is never read. -/
def create_mcar_column (df : DataFrame) (missing_column : String)
    (p_missing : ℚ) (random_state : ℕ) (g : Rng) : Except PyError (List ℕ) :=
  let n := df.nRows
  let k := missCount p_missing n
  (sampleKDistinct (uniformDrawOne random_state n) k (n + k)).map
    (indicatorColumn n)

/-- Notebook function `create_mar_column`.  Weights are `df[depends_on]`
(method `'linear'`, passed to pandas as the column name) or
`df[depends_on] ** 2` (method `'quadratic'`).  Any other method string leaves
`mar_indices` unassigned, so building the indicator column raises
`UnboundLocalError` — lazily, hence only when the row range is nonempty. -/
def create_mar_column (df : DataFrame) (missing_column depends_on : String)
    (method : String) (p_missing : ℚ) (random_state : ℕ) (g : Rng) :
    Except PyError (List ℕ) :=
  let n := df.nRows
  let k := missCount p_missing n
  if method = linearS then
    (sampleKDistinct (weightedDrawOne random_state (df.col depends_on)) k
      (n + k)).map (indicatorColumn n)
  else if method = quadraticS then
    (sampleKDistinct
      (weightedDrawOne random_state ((df.col depends_on).map (fun a => a ^ 2)))
      k (n + k)).map (indicatorColumn n)
  else if n = 0 then .ok []
  else .error .unboundLocal

/-- Notebook function `create_nmar_column`: as `create_mar_column` but the
weights come from the target column `missing_column` itself. -/
def create_nmar_column (df : DataFrame) (missing_column : String)
    (method : String) (p_missing : ℚ) (random_state : ℕ) (g : Rng) :
    Except PyError (List ℕ) :=
  let n := df.nRows
  let k := missCount p_missing n
  if method = linearS then
    (sampleKDistinct (weightedDrawOne random_state (df.col missing_column)) k
      (n + k)).map (indicatorColumn n)
  else if method = quadraticS then
    (sampleKDistinct
      (weightedDrawOne random_state
        ((df.col missing_column).map (fun a => a ^ 2)))
      k (n + k)).map (indicatorColumn n)
  else if n = 0 then .ok []
  else .error .unboundLocal

/-- The statistic `np.mean(df[column])`: mean over the whole stored column. -/
def npMean (l : List ℚ) : ℚ := l.sum / l.length

/-- Insertion of an element into an ascending list. -/
def insertSorted (x : ℚ) : List ℚ → List ℚ
  | [] => [x]
  | y :: ys => if x ≤ y then x :: y :: ys else y :: insertSorted x ys

/-- Ascending insertion sort, used to model numpy's sort. -/
def sortAsc (l : List ℚ) : List ℚ := l.foldr insertSorted []

/-- The statistic `np.median(df[column])`: the middle sorted value, or the
mean of the two middle sorted values when the length is even. -/
def npMedian (l : List ℚ) : ℚ :=
  let s := sortAsc l
  let n := l.length
  if n = 0 then 0
  else if n % 2 = 1 then s.getD (n / 2) 0
  else (s.getD (n / 2 - 1) 0 + s.getD (n / 2) 0) / 2

/-- The statistic `scipy.stats.mode(df[column])[0][0]`: the most frequent
value, the smallest one in case of ties. -/
def statsMode (l : List ℚ) : ℚ :=
  let s := sortAsc l
  s.foldl (fun best x => if l.count best < l.count x then x else best)
    (s.headD 0)

/-- Notebook function `impute_mean`: keep the stored value where the
indicator is 0, otherwise impute `np.mean` of the whole stored column. -/
def impute_mean (df : DataFrame) (impute_column missingness_column : String) :
    List ℚ :=
  (List.range df.nRows).map (fun i =>
    if df.cell i missingness_column = 0 then df.cell i impute_column
    else npMean (df.col impute_column))

/-- Notebook function `impute_median`. -/
def impute_median (df : DataFrame)
    (impute_column missingness_column : String) : List ℚ :=
  (List.range df.nRows).map (fun i =>
    if df.cell i missingness_column = 0 then df.cell i impute_column
    else npMedian (df.col impute_column))

/-- Notebook function `impute_mode`. -/
def impute_mode (df : DataFrame) (impute_column missingness_column : String) :
    List ℚ :=
  (List.range df.nRows).map (fun i =>
    if df.cell i missingness_column = 0 then df.cell i impute_column
    else statsMode (df.col impute_column))

/-- Rows of the target column that the indicator marks observed: the data a
missing-data analysis would restrict the summary statistic to. -/
def observedCol (df : DataFrame) (impute_column missingness_column : String) :
    List ℚ :=
  ((List.range df.nRows).filter (fun i => df.cell i missingness_column = 0)).map
    (fun i => df.cell i impute_column)

/-- Sample variance with Bessel's correction, `np.var(l, ddof = 1)`. -/
def sampleVar (l : List ℚ) : ℚ :=
  (l.map (fun z => (z - npMean l) ^ 2)).sum / ((l.length : ℚ) - 1)

/-- Column names appearing literally in the notebook. -/
def ageN : String := "age"

/-- Name of the MCAR indicator column on `age`, hardcoded in
`regression_imputation`. -/
def ageMissN : String := "age_missingness"

/-- Column name `children`. -/
def childrenN : String := "children"

/-- Column name `partnered`. -/
def partneredN : String := "partnered"

/-- Column name `income`. -/
def incomeN : String := "income"

/-- Name of the NMAR indicator column on `income`. -/
def incomeMissN : String := "income_missingness"

/-- The design matrix `df[X_columns]` passed to `model.fit`: one row of
feature values for every row of `df` — no restriction to observed rows. -/
def trainX (df : DataFrame) (X_columns : List String) : List (List ℚ) :=
  (List.range df.nRows).map (fun i => X_columns.map (fun c => df.cell i c))

/-- The feature row `df.loc[i, ['children', 'partnered', 'income']]` that the
output comprehension of `regression_imputation` hardcodes. -/
def hardcodedRow (df : DataFrame) (i : ℕ) : List ℚ :=
  [childrenN, partneredN, incomeN].map (fun c => df.cell i c)

/-- A fitted sklearn estimator: the feature count `n_features_in_` recorded
from the width of the training design matrix, and the prediction function. -/
structure FittedModel where
  nFeatures : ℕ
  predict : List ℚ → ℚ

/-- One call of `model.predict` on a single row: sklearn raises a
`ValueError` when the row's feature count differs from `n_features_in_`. -/
def predictOne (m : FittedModel) (row : List ℚ) : Except PyError ℚ :=
  if row.length = m.nFeatures then .ok (m.predict row) else
    .error .featureMismatch

/-- Sequencing of the values of the output comprehension of
`regression_imputation`: the first raising `model.predict` call propagates
its exception and no column is returned. -/
def collectSeq : List (Except PyError ℚ) → Except PyError (List ℚ)
  | [] => .ok []
  | e :: rest =>
    match e with
    | .error err => .error err
    | .ok v =>
      match collectSeq rest with
      | .error err => .error err
      | .ok l => .ok (v :: l)

/-- The output comprehension of `regression_imputation`: the column names
`'age'` and `'age_missingness'` and the feature list are hardcoded in the
source, ignoring the `impute_column`, `X_columns` and `missingness_column`
arguments; each flagged row triggers one `model.predict` call on the
hardcoded three-feature row, which may raise. -/
def regOutput (df : DataFrame) (model : FittedModel) :
    Except PyError (List ℚ) :=
  collectSeq ((List.range df.nRows).map (fun i =>
    if df.cell i ageMissN = 0 then .ok (df.cell i ageN)
    else predictOne model (hardcodedRow df i)))

/-- Notebook function `regression_imputation`.  The sklearn estimators are
modelled by the parameters `linFit` and `logFit` mapping the training data to
a fitted model (or an exception); the function fits on `df[X_columns]` and
`df[impute_column]` over all rows, and builds its result with `regOutput`.
A regression string other than `'linear'` or `'logistic'` leaves `model`
unassigned, raising `UnboundLocalError` at `model.fit`. -/
def regression_imputation
    (linFit logFit : List (List ℚ) → List ℚ → Except PyError FittedModel)
    (df : DataFrame) (impute_column : String) (X_columns : List String)
    (missingness_column : String) (regression : String) :
    Except PyError (List ℚ) :=
  if regression = linearS ∨ regression = logisticS then
    match (if regression = linearS then linFit else logFit)
        (trainX df X_columns) (df.col impute_column) with
    | .error e => .error e
    | .ok model => regOutput df model
  else .error .unboundLocal

/-- A trivial stand-in estimator used to instantiate witnesses: fitting
always succeeds, records `n_features_in_` as the width of the first training
row like sklearn, and the fitted model predicts 0. -/
def constFit : List (List ℚ) → List ℚ → Except PyError FittedModel :=
  fun X _ => .ok ⟨(X.headD []).length, fun _ => 0⟩

/-- An initial global generator state for concrete instantiations; the
generators reseed, so its value is irrelevant. -/
def rng0 : Rng := (0, 0)

/-- Name of a weight column in the concrete test tables. -/
def wN : String := "w"

/-- Name of a missingness indicator column in the concrete test tables. -/
def mN : String := "m"

/-- An unsupported method string. -/
def cubicS : String := "cubic"

/-- A 4-row table whose weight column has a single positive entry. -/
def dfA : DataFrame := ⟨4, [(wN, [1, 0, 0, 0])]⟩

/-- A 1-row table with an all-zero weight column. -/
def dfZ : DataFrame := ⟨1, [(wN, [0])]⟩

/-- A 2-row table with a negative weight entry. -/
def dfNeg : DataFrame := ⟨2, [(wN, [-1, 1])]⟩

/-- A 3-row table with positive weights. -/
def dfW : DataFrame := ⟨3, [(wN, [1, 2, 3])]⟩

/-- A 4-row table on which median imputation inflates the sample variance:
the full-column median 5/2 is farther from the mean 7/2 than the flagged
value 3 is. -/
def dfB : DataFrame := ⟨4, [(ageN, [0, 2, 3, 9]), (mN, [0, 0, 1, 0])]⟩

/-- A 2-row table with one observed and one flagged row. -/
def dfSmall : DataFrame := ⟨2, [(ageN, [0, 10]), (mN, [0, 1])]⟩

/-- A 3-row table where the mode shifts when the flagged row is included. -/
def dfMode : DataFrame := ⟨3, [(ageN, [0, 10, 10]), (mN, [0, 0, 1])]⟩

/-- The notebook's data layout in miniature: `age` is observed only on row 1,
`income` only on row 0. -/
def df6 : DataFrame :=
  ⟨2, [(ageN, [30, 40]), (childrenN, [1, 2]), (partneredN, [1, 0]),
       (incomeN, [100, 200]), (ageMissN, [1, 0]), (incomeMissN, [0, 1])]⟩

/-- The notebook's three-feature design for the regression calls on `df6`,
matching the arity of the hardcoded prediction row. -/
def xcols3 : List String := [childrenN, partneredN, incomeN]

/-- The column `regression_imputation` produces on `df6` under `constFit`. -/
def rc4 : List ℚ := [0, 40]

/-- Evaluation of `pyRound` at a natural number. -/
theorem pyRound_natCast (m : ℕ) : pyRound ((m : ℕ) : ℚ) = (m : ℤ) := by
  simp [pyRound, Rat.floor, Rat.den_natCast, Rat.num_natCast]

/-- Evaluation of `missCount` when the product is a whole number. -/
theorem missCount_eq_of_mul_eq {p : ℚ} {n m : ℕ} (h : p * (n : ℚ) = (m : ℕ)) :
    missCount p n = m := by
  rw [missCount, h, pyRound_natCast]
  simp

/-- A modelled draw from a nonempty candidate pool lands in the pool. -/
theorem cyc_mem {l : List ℕ} (h : l ≠ []) (seed step : ℕ) :
    cyc l seed step ∈ l := by
  have hlen : 0 < l.length := List.length_pos.mpr h
  have hm : (seed + step) % l.length < l.length := Nat.mod_lt _ hlen
  rw [cyc, List.getD_eq_get _ _ hm]
  exact List.get_mem _ _ _

/-- The first `k` modelled draws from a pool of at least `k` distinct
candidates are pairwise distinct. -/
theorem cyc_init_nodup {l : List ℕ} (hnd : l.Nodup) (seed k : ℕ)
    (hk : k ≤ l.length) : ((List.range k).map (cyc l seed)).Nodup := by
  refine List.Nodup.map_on ?_ (List.nodup_range k)
  intro i hi j hj hij
  rw [List.mem_range] at hi hj
  have hil : i < l.length := lt_of_lt_of_le hi hk
  have hjl : j < l.length := lt_of_lt_of_le hj hk
  have hpi : (seed + i) % l.length < l.length := Nat.mod_lt _ (by omega)
  have hpj : (seed + j) % l.length < l.length := Nat.mod_lt _ (by omega)
  rw [cyc, cyc, List.getD_eq_get _ _ hpi, List.getD_eq_get _ _ hpj] at hij
  have hpos : (seed + i) % l.length = (seed + j) % l.length := by
    have := (List.Nodup.get_inj_iff hnd).mp hij
    exact congrArg Fin.val this
  have hmod : i % l.length = j % l.length := by
    have h1 : (seed + i) % l.length = (seed + j) % l.length := hpos
    have := Nat.ModEq.add_left_cancel' seed (h1 : (seed + i) ≡ (seed + j) [MOD l.length])
    exact this
  rwa [Nat.mod_eq_of_lt hil, Nat.mod_eq_of_lt hjl] at hmod

/-- Draw sequencing of always-succeeding draws returns the list of draws. -/
theorem drawSeq_ok {d : ℕ → Except PyError ℕ} {g : ℕ → ℕ}
    (h : ∀ x, d x = .ok (g x)) :
    ∀ steps : List ℕ, drawSeq d steps = .ok (steps.map g) := by
  intro steps
  induction steps with
  | nil => rfl
  | cons s rest ih => simp [drawSeq, h s, ih]

/-- A draw raising on the first step propagates its exception. -/
theorem drawSeq_error {d : ℕ → Except PyError ℕ} {s : ℕ} {e : PyError}
    (h : d s = .error e) (rest : List ℕ) :
    drawSeq d (s :: rest) = .error e := by
  simp [drawSeq, h]

/-- The resampling loop stops at once when enough distinct indices exist. -/
theorem resampleLoop_ok_of_card {d : ℕ → Except PyError ℕ} {k fuel : ℕ}
    {acc : List ℕ} (h : k ≤ acc.toFinset.card) :
    resampleLoop d k fuel acc = .ok acc := by
  cases fuel <;> simp [resampleLoop, h]

/-- Appending one element grows the number of distinct values by at most 1. -/
theorem toFinset_card_append_le (acc : List ℕ) (i : ℕ) :
    (acc ++ [i]).toFinset.card ≤ acc.toFinset.card + 1 := by
  rw [List.toFinset_append]
  refine le_trans (Finset.card_union_le _ _) ?_
  simp

/-- The loop stops as soon as the distinct count reaches `k`, and each
iteration adds at most one new index, so a successful run returns exactly `k`
distinct indices. -/
theorem resampleLoop_card {d : ℕ → Except PyError ℕ} {k : ℕ} :
    ∀ (fuel : ℕ) (acc : List ℕ), acc.toFinset.card ≤ k →
      ∀ out, resampleLoop d k fuel acc = .ok out → out.toFinset.card = k := by
  intro fuel
  induction fuel with
  | zero =>
    intro acc hle out hout
    rw [resampleLoop] at hout
    split at hout
    · cases hout; omega
    · cases hout
  | succ f ih =>
    intro acc hle out hout
    rw [resampleLoop] at hout
    split at hout
    · cases hout; omega
    · rename_i hlt
      cases hd : d acc.length with
      | error e => rw [hd] at hout; cases hout
      | ok i =>
        rw [hd] at hout
        refine ih (acc ++ [i]) ?_ out hout
        have := toFinset_card_append_le acc i
        omega

/-- Every index a successful loop run returns is either from the initial
accumulator or was produced by a draw. -/
theorem resampleLoop_mem {d : ℕ → Except PyError ℕ} {k n : ℕ}
    (hd : ∀ step i, d step = .ok i → i < n) :
    ∀ (fuel : ℕ) (acc : List ℕ), (∀ a ∈ acc, a < n) →
      ∀ out, resampleLoop d k fuel acc = .ok out → ∀ a ∈ out, a < n := by
  intro fuel
  induction fuel with
  | zero =>
    intro acc hacc out hout
    rw [resampleLoop] at hout
    split at hout
    · cases hout; exact hacc
    · cases hout
  | succ f ih =>
    intro acc hacc out hout
    rw [resampleLoop] at hout
    split at hout
    · cases hout; exact hacc
    · cases hd' : d acc.length with
      | error e => rw [hd'] at hout; cases hout
      | ok i =>
        rw [hd'] at hout
        refine ih (acc ++ [i]) ?_ out hout
        intro a ha
        rcases List.mem_append.mp ha with h | h
        · exact hacc a h
        · simp at h; subst h; exact hd _ _ hd'

/-- When every draw lands in a candidate set of fewer than `k` elements, the
loop can never reach `k` distinct indices: for every fuel it ends in the
marker for nontermination, faithfully to the `while` loop running forever. -/
theorem resampleLoop_stuck {d : ℕ → Except PyError ℕ} {k : ℕ} (S : Finset ℕ)
    (hcard : S.card < k) (hd : ∀ step, ∃ i, d step = .ok i ∧ i ∈ S) :
    ∀ (fuel : ℕ) (acc : List ℕ), acc.toFinset ⊆ S →
      resampleLoop d k fuel acc = .error .nonTermination := by
  intro fuel
  induction fuel with
  | zero =>
    intro acc hsub
    have : acc.toFinset.card ≤ S.card := Finset.card_le_card hsub
    rw [resampleLoop, if_neg (by omega)]
  | succ f ih =>
    intro acc hsub
    have hle : acc.toFinset.card ≤ S.card := Finset.card_le_card hsub
    obtain ⟨i, hi, hiS⟩ := hd acc.length
    rw [resampleLoop, if_neg (by omega), hi]
    refine ih (acc ++ [i]) ?_
    rw [List.toFinset_append]
    intro a ha
    rcases Finset.mem_union.mp ha with h | h
    · exact hsub h
    · simp at h; subst h; exact hiS

/-- Requesting zero missing rows performs no draw at all. -/
theorem sampleKDistinct_zero (d : ℕ → Except PyError ℕ) (fuel : ℕ) :
    sampleKDistinct d 0 fuel = .ok [] := by
  rw [sampleKDistinct]
  have h0 : drawSeq d (List.range 0) = .ok [] := rfl
  rw [h0]
  exact resampleLoop_ok_of_card (by simp)

/-- Sampling with the modelled pseudo-random draws from a pool of at least
`k` distinct candidates succeeds with the first `k` draws. -/
theorem sampleKDistinct_cyc {l : List ℕ} (hnd : l.Nodup) (s k fuel : ℕ)
    (hk : k ≤ l.length) :
    sampleKDistinct (fun step => .ok (cyc l s step)) k fuel =
      .ok ((List.range k).map (cyc l s)) := by
  rw [sampleKDistinct, drawSeq_ok (fun x => rfl)]
  refine resampleLoop_ok_of_card ?_
  rw [List.toFinset_card_of_nodup (cyc_init_nodup hnd s k hk)]
  simp

/-- With fewer than `k` distinct candidates the whole sampling procedure
diverges, whatever the fuel. -/
theorem sampleKDistinct_cyc_stuck {l : List ℕ} (hne : l ≠ []) (s k fuel : ℕ)
    (hk : l.toFinset.card < k) :
    sampleKDistinct (fun step => .ok (cyc l s step)) k fuel =
      .error .nonTermination := by
  rw [sampleKDistinct, drawSeq_ok (fun x => rfl)]
  refine resampleLoop_stuck l.toFinset hk
    (fun step => ⟨cyc l s step, rfl, List.mem_toFinset.mpr (cyc_mem hne s step)⟩)
    fuel _ ?_
  intro a ha
  rw [List.mem_toFinset] at ha
  obtain ⟨i, _, hia⟩ := List.mem_map.mp ha
  rw [List.mem_toFinset]
  exact hia ▸ cyc_mem hne s i

/-- The candidate rows of weighted sampling are pairwise distinct. -/
theorem posIdx_nodup (w : List ℚ) : (posIdx w).Nodup :=
  List.Nodup.filter _ (List.nodup_range w.length)

/-- Candidate rows are row indices of the weight column. -/
theorem posIdx_lt {w : List ℚ} {a : ℕ} (h : a ∈ posIdx w) : a < w.length := by
  rw [posIdx, List.mem_filter, List.mem_range] at h
  exact h.1

/-- Candidate rows carry strictly positive weight. -/
theorem posIdx_pos {w : List ℚ} {a : ℕ} (h : a ∈ posIdx w) :
    0 < w.getD a 0 := by
  rw [posIdx, List.mem_filter] at h
  exact of_decide_eq_true h.2

/-- Nonnegative weights with at least one candidate row have positive sum. -/
theorem sum_pos_of_posIdx {w : List ℚ} (hneg : ∀ a ∈ w, 0 ≤ a)
    {a : ℕ} (ha : a ∈ posIdx w) : 0 < w.sum := by
  have hlt := posIdx_lt ha
  have hpos := posIdx_pos ha
  have hget : w.getD a 0 = w.get ⟨a, hlt⟩ := List.getD_eq_get _ _ hlt
  have hmem : w.get ⟨a, hlt⟩ ∈ w := List.get_mem _ _ _
  have := List.single_le_sum hneg _ hmem
  rw [hget] at hpos
  linarith

/-- On nonnegative weights with nonzero sum, each pandas weighted draw
succeeds and returns a positive-weight row. -/
theorem weightedDrawOne_eq_cyc {w : List ℚ} (hneg : ∀ a ∈ w, 0 ≤ a)
    (hsum : w.sum ≠ 0) (s : ℕ) :
    weightedDrawOne s w = fun step => .ok (cyc (posIdx w) s step) := by
  funext step
  have h1 : w.any (fun a => decide (a < 0)) = false := by
    rw [List.any_eq_false]
    intro a ha
    simpa using not_lt.mpr (hneg a ha)
  simp [weightedDrawOne, h1, hsum]

/-- Shape of the indicator column. -/
theorem indicatorColumn_length (n : ℕ) (idx : List ℕ) :
    (indicatorColumn n idx).length = n := by
  simp [indicatorColumn]

/-- Helper: counting the 1-entries of a membership indicator. -/
theorem count_one_indicator (idx : List ℕ) : ∀ L : List ℕ,
    (L.map (fun i => if i ∈ idx then 1 else 0)).count 1 =
      L.countP (fun i => decide (i ∈ idx)) := by
  intro L
  induction L with
  | nil => rfl
  | cons a L ih =>
    by_cases hmem : a ∈ idx <;>
      simp [List.count_cons, List.countP_cons, hmem, ih]

/-- Helper: the indicator entries are 0 or 1, so the two counts are
complementary. -/
theorem count_zero_add_count_one (idx : List ℕ) : ∀ L : List ℕ,
    (L.map (fun i => if i ∈ idx then 1 else 0)).count 0 +
      (L.map (fun i => if i ∈ idx then 1 else 0)).count 1 = L.length := by
  intro L
  induction L with
  | nil => rfl
  | cons a L ih =>
    by_cases hmem : a ∈ idx <;>
      simp [List.count_cons, hmem] <;> omega

/-- The indicator column of an index list of row indices has exactly one
1-entry per distinct index, the other entries being 0. -/
theorem indicatorColumn_count {n k : ℕ} {idx : List ℕ}
    (hsub : ∀ a ∈ idx, a < n) (hcard : idx.toFinset.card = k) :
    (indicatorColumn n idx).count 1 = k ∧
      (indicatorColumn n idx).count 0 = n - k := by
  have hfilter : ((List.range n).filter (fun i => decide (i ∈ idx))).toFinset
      = idx.toFinset := by
    ext a
    simp only [List.mem_toFinset, List.mem_filter, List.mem_range,
      decide_eq_true_eq]
    exact ⟨fun h => h.2, fun h => ⟨hsub a h, h⟩⟩
  have hnd : ((List.range n).filter (fun i => decide (i ∈ idx))).Nodup :=
    List.Nodup.filter _ (List.nodup_range n)
  have hcount1 : (indicatorColumn n idx).count 1 = k := by
    rw [indicatorColumn, count_one_indicator, List.countP_eq_length_filter,
      ← List.toFinset_card_of_nodup hnd, hfilter, hcard]
  refine ⟨hcount1, ?_⟩
  have h2 := count_zero_add_count_one idx (List.range n)
  rw [List.length_range] at h2
  have h1 : (indicatorColumn n idx).count 0 + (indicatorColumn n idx).count 1
      = n := h2
  omega

/-- Unweighted sampling of `k ≤ n` distinct rows out of `n` succeeds and
returns `k` distinct row indices. -/
theorem uniform_sample_ok {n k : ℕ} (hk : k ≤ n) (s fuel : ℕ) :
    ∃ idx : List ℕ, sampleKDistinct (uniformDrawOne s n) k fuel = .ok idx ∧
      (∀ a ∈ idx, a < n) ∧ idx.toFinset.card = k := by
  have hd : uniformDrawOne s n = fun step => .ok (cyc (List.range n) s step) :=
    rfl
  refine ⟨(List.range k).map (cyc (List.range n) s), ?_, ?_, ?_⟩
  · rw [hd]
    exact sampleKDistinct_cyc (List.nodup_range n) s k fuel (by simpa using hk)
  · intro a ha
    obtain ⟨i, _, hia⟩ := List.mem_map.mp ha
    by_cases hn : n = 0
    · exfalso
      have : k = 0 := by omega
      subst this
      simp at ha
    · have hne : List.range n ≠ [] := by
        intro h
        exact hn (by simpa using congrArg List.length h)
      have := hia ▸ cyc_mem hne s i
      simpa using this
  · rw [List.toFinset_card_of_nodup
      (cyc_init_nodup (List.nodup_range n) s k (by simpa using hk))]
    simp

/-- Weighted sampling of `k` distinct rows succeeds when the weights are
nonnegative and at least `k` rows have positive weight, and then returns `k`
distinct positive-weight row indices. -/
theorem weighted_sample_ok {w : List ℚ} {n : ℕ} (hw : w.length = n)
    (hneg : ∀ a ∈ w, 0 ≤ a) {k : ℕ} (hk : k ≤ (posIdx w).length)
    (s fuel : ℕ) :
    ∃ idx : List ℕ, sampleKDistinct (weightedDrawOne s w) k fuel = .ok idx ∧
      (∀ a ∈ idx, a < n) ∧ idx.toFinset.card = k := by
  rcases Nat.eq_zero_or_pos k with hk0 | hkpos
  · subst hk0
    exact ⟨[], sampleKDistinct_zero _ _, by simp, by simp⟩
  · have hne : posIdx w ≠ [] := by
      intro h
      rw [h] at hk
      simp at hk
      omega
    obtain ⟨a, ha⟩ := List.exists_mem_of_ne_nil _ hne
    have hsum : w.sum ≠ 0 := ne_of_gt (sum_pos_of_posIdx hneg ha)
    rw [weightedDrawOne_eq_cyc hneg hsum s]
    refine ⟨(List.range k).map (cyc (posIdx w) s), ?_, ?_, ?_⟩
    · exact sampleKDistinct_cyc (posIdx_nodup w) s k fuel hk
    · intro b hb
      obtain ⟨i, _, hib⟩ := List.mem_map.mp hb
      have := hib ▸ cyc_mem hne s i
      exact hw ▸ posIdx_lt this
    · rw [List.toFinset_card_of_nodup
        (cyc_init_nodup (posIdx_nodup w) s k hk)]
      simp

/-- Weighted sampling with a requested count of at least one draw fails at
the very first draw when the weight vector has a negative entry or is all
zero, with the corresponding pandas exception. -/
theorem weighted_sample_bad {w : List ℚ} {k : ℕ} (hk : 0 < k)
    (hbad : (∃ a ∈ w, a < 0) ∨ ∀ a ∈ w, a = 0) (s fuel : ℕ) :
    sampleKDistinct (weightedDrawOne s w) k fuel = .error .negativeWeights ∨
      sampleKDistinct (weightedDrawOne s w) k fuel = .error .zeroWeights := by
  have hrange : List.range k = 0 :: (List.range (k - 1)).map (· + 1) := by
    rcases Nat.exists_eq_succ_of_ne_zero (Nat.pos_iff_ne_zero.mp hk) with ⟨m, hm⟩
    subst hm
    simp [List.range_succ_eq_map]
  rcases hbad with hneg | hzero
  · left
    have h0 : weightedDrawOne s w 0 = .error .negativeWeights := by
      have h1 : w.any (fun a => decide (a < 0)) = true := by
        rw [List.any_eq_true]
        obtain ⟨a, ha, hlt⟩ := hneg
        exact ⟨a, ha, by simpa using hlt⟩
      simp [weightedDrawOne, h1]
    rw [sampleKDistinct, hrange, drawSeq_error h0]
  · right
    have h0 : weightedDrawOne s w 0 = .error .zeroWeights := by
      have h1 : w.any (fun a => decide (a < 0)) = false := by
        rw [List.any_eq_false]
        intro a ha
        simpa using not_lt.mpr (le_of_eq (hzero a ha).symm)
      have h2 : w.sum = 0 := List.sum_eq_zero hzero
      simp [weightedDrawOne, h1, h2]
    rw [sampleKDistinct, hrange, drawSeq_error h0]

/-- Weighted sampling diverges, whatever the fuel, when the weights are
admissible but fewer than `k` rows carry positive weight. -/
theorem weighted_sample_stuck {w : List ℚ} (hneg : ∀ a ∈ w, 0 ≤ a)
    (hne : posIdx w ≠ []) {k : ℕ} (hk : (posIdx w).length < k) (s fuel : ℕ) :
    sampleKDistinct (weightedDrawOne s w) k fuel = .error .nonTermination := by
  obtain ⟨a, ha⟩ := List.exists_mem_of_ne_nil _ hne
  have hsum : w.sum ≠ 0 := ne_of_gt (sum_pos_of_posIdx hneg ha)
  rw [weightedDrawOne_eq_cyc hneg hsum s]
  refine sampleKDistinct_cyc_stuck hne s k fuel ?_
  calc (posIdx w).toFinset.card
      = (posIdx w).length := List.toFinset_card_of_nodup (posIdx_nodup w)
    _ < k := hk

/-- The two supported method strings differ. -/
theorem linearS_ne_quadraticS : linearS ≠ quadraticS := by decide

/-- Requesting a zero count of any rational product. -/
theorem pyRound_zero : pyRound 0 = 0 := by
  have := pyRound_natCast 0
  simpa using this

/-- An empty table always has a zero requested missing count. -/
theorem missCount_nRows_zero {p : ℚ} : missCount p 0 = 0 := by
  rw [missCount]
  norm_num [pyRound_zero]

/-- A positive requested count forces a nonempty table. -/
theorem nRows_ne_zero_of_missCount {p : ℚ} {n : ℕ}
    (h : 0 < missCount p n) : n ≠ 0 := by
  intro hn
  rw [hn, missCount_nRows_zero] at h
  omega

/-- Packaged success case for the weighted generators: with admissible
weights and enough positive-weight rows, the produced indicator column has
exactly the requested number of 1-entries. -/
theorem weighted_gen_counts {w : List ℚ} {n : ℕ} (hw : w.length = n)
    (hneg : ∀ a ∈ w, 0 ≤ a) {k : ℕ} (hk : k ≤ (posIdx w).length)
    (s fuel : ℕ) :
    ∃ col, (sampleKDistinct (weightedDrawOne s w) k fuel).map
        (indicatorColumn n) = .ok col ∧
      col.length = n ∧ col.count 1 = k ∧ col.count 0 = n - k := by
  obtain ⟨idx, hok, hsub, hcard⟩ := weighted_sample_ok hw hneg hk s fuel
  obtain ⟨h1, h0⟩ := indicatorColumn_count hsub hcard
  exact ⟨indicatorColumn n idx, by rw [hok]; rfl,
    indicatorColumn_length n idx, h1, h0⟩

/-- Packaged success case for the unweighted generator. -/
theorem uniform_gen_counts {n k : ℕ} (hk : k ≤ n) (s fuel : ℕ) :
    ∃ col, (sampleKDistinct (uniformDrawOne s n) k fuel).map
        (indicatorColumn n) = .ok col ∧
      col.length = n ∧ col.count 1 = k ∧ col.count 0 = n - k := by
  obtain ⟨idx, hok, hsub, hcard⟩ := uniform_sample_ok hk s fuel
  obtain ⟨h1, h0⟩ := indicatorColumn_count hsub hcard
  exact ⟨indicatorColumn n idx, by rw [hok]; rfl,
    indicatorColumn_length n idx, h1, h0⟩

/-- The indicator column of no selected index is all zero. -/
theorem indicatorColumn_nil (n : ℕ) :
    indicatorColumn n [] = List.replicate n 0 := by
  simp [indicatorColumn]

/-- The two method strings in the other direction. -/
theorem quadraticS_ne_linearS : quadraticS ≠ linearS := by decide

/-- Unfolding of the MAR generator in linear mode. -/
theorem create_mar_linear_eq (df : DataFrame) (mc dep : String) (p : ℚ)
    (s : ℕ) (g : Rng) :
    create_mar_column df mc dep linearS p s g =
      (sampleKDistinct (weightedDrawOne s (df.col dep))
        (missCount p df.nRows) (df.nRows + missCount p df.nRows)).map
        (indicatorColumn df.nRows) := by
  simp [create_mar_column]

/-- Unfolding of the MAR generator in quadratic mode. -/
theorem create_mar_quadratic_eq (df : DataFrame) (mc dep : String) (p : ℚ)
    (s : ℕ) (g : Rng) :
    create_mar_column df mc dep quadraticS p s g =
      (sampleKDistinct (weightedDrawOne s ((df.col dep).map (fun a => a ^ 2)))
        (missCount p df.nRows) (df.nRows + missCount p df.nRows)).map
        (indicatorColumn df.nRows) := by
  simp [create_mar_column, quadraticS_ne_linearS]

/-- Unfolding of the NMAR generator in linear mode. -/
theorem create_nmar_linear_eq (df : DataFrame) (mc : String) (p : ℚ)
    (s : ℕ) (g : Rng) :
    create_nmar_column df mc linearS p s g =
      (sampleKDistinct (weightedDrawOne s (df.col mc))
        (missCount p df.nRows) (df.nRows + missCount p df.nRows)).map
        (indicatorColumn df.nRows) := by
  simp [create_nmar_column]

/-- Unfolding of the NMAR generator in quadratic mode. -/
theorem create_nmar_quadratic_eq (df : DataFrame) (mc : String) (p : ℚ)
    (s : ℕ) (g : Rng) :
    create_nmar_column df mc quadraticS p s g =
      (sampleKDistinct (weightedDrawOne s ((df.col mc).map (fun a => a ^ 2)))
        (missCount p df.nRows) (df.nRows + missCount p df.nRows)).map
        (indicatorColumn df.nRows) := by
  simp [create_nmar_column, quadraticS_ne_linearS]

/-- C2: each missingness generator is deterministic in its seed: two calls
with the same `random_state` and the same inputs return identical indicator
columns, whatever the incoming global generator states were, because
`np.random.seed(random_state)` resets the generator before any draw. -/
theorem c2_seed_determinism (df : DataFrame) (mc dep method : String)
    (p : ℚ) (s : ℕ) (g g' : Rng) :
    create_mcar_column df mc p s g = create_mcar_column df mc p s g' ∧
    create_mar_column df mc dep method p s g =
      create_mar_column df mc dep method p s g' ∧
    create_nmar_column df mc method p s g =
      create_nmar_column df mc method p s g' :=
  ⟨rfl, rfl, rfl⟩

/-- C8: the output of `create_mcar_column` does not depend on its
`missing_column` argument: the parameter is never read and the sampling is
unweighted. -/
theorem c8_mcar_ignores_missing_column (df : DataFrame) (mc mc' : String)
    (p : ℚ) (s : ℕ) (g : Rng) :
    create_mcar_column df mc p s g = create_mcar_column df mc' p s g := rfl

/-- C10: for every method string other than `'linear'` and `'quadratic'`,
with a positive requested missing count, `create_mar_column` and
`create_nmar_column` raise (the index list is never assigned before its use)
rather than returning an indicator column. -/
theorem c10_invalid_method_error (df : DataFrame) (mc dep method : String)
    (p : ℚ) (s : ℕ) (g : Rng) (hlin : method ≠ linearS)
    (hquad : method ≠ quadraticS) (hk : 0 < missCount p df.nRows) :
    create_mar_column df mc dep method p s g = .error .unboundLocal ∧
    create_nmar_column df mc method p s g = .error .unboundLocal := by
  have hn : ¬ df.nRows = 0 := nRows_ne_zero_of_missCount hk
  constructor <;> simp [create_mar_column, create_nmar_column, hlin, hquad, hn]

/-- Witness for C10 at a concrete table and the method string `'cubic'`. -/
theorem c10_invalid_method_error_witness :
    create_mar_column dfW incomeN wN cubicS 1 0 rng0 = .error .unboundLocal ∧
    create_nmar_column dfW incomeN cubicS 1 0 rng0 = .error .unboundLocal := by
  have hk : 0 < missCount 1 dfW.nRows := by
    have h3 : missCount 1 dfW.nRows = 3 := by
      refine missCount_eq_of_mul_eq ?_
      show (1 : ℚ) * ((3 : ℕ) : ℚ) = ((3 : ℕ) : ℚ)
      push_cast
      norm_num
    omega
  exact c10_invalid_method_error dfW incomeN wN cubicS 1 0 rng0
    (by decide) (by decide) hk

/-- C5 (amended): whenever the requested missing count is positive, a weight
vector with a negative entry or summing to zero makes the weighted
generators raise the corresponding pandas exception instead of returning an
indicator column; with a requested count of zero the sampling is skipped, no
weight check happens, and an all-zero column is returned (see the
counterexample). -/
theorem c5_degenerate_weights_error (df : DataFrame) (mc dep : String)
    (p : ℚ) (s : ℕ) (g : Rng) (hk : 0 < missCount p df.nRows) :
    (((∃ a ∈ df.col dep, a < 0) ∨ ∀ a ∈ df.col dep, a = 0) →
      create_mar_column df mc dep linearS p s g = .error .negativeWeights ∨
      create_mar_column df mc dep linearS p s g = .error .zeroWeights) ∧
    (((∃ a ∈ (df.col dep).map (fun a => a ^ 2), a < 0) ∨
        ∀ a ∈ (df.col dep).map (fun a => a ^ 2), a = 0) →
      create_mar_column df mc dep quadraticS p s g = .error .negativeWeights ∨
      create_mar_column df mc dep quadraticS p s g = .error .zeroWeights) ∧
    (((∃ a ∈ df.col mc, a < 0) ∨ ∀ a ∈ df.col mc, a = 0) →
      create_nmar_column df mc linearS p s g = .error .negativeWeights ∨
      create_nmar_column df mc linearS p s g = .error .zeroWeights) ∧
    (((∃ a ∈ (df.col mc).map (fun a => a ^ 2), a < 0) ∨
        ∀ a ∈ (df.col mc).map (fun a => a ^ 2), a = 0) →
      create_nmar_column df mc quadraticS p s g = .error .negativeWeights ∨
      create_nmar_column df mc quadraticS p s g = .error .zeroWeights) := by
  refine ⟨fun hbad => ?_, fun hbad => ?_, fun hbad => ?_, fun hbad => ?_⟩
  · rcases weighted_sample_bad hk hbad s (df.nRows + missCount p df.nRows)
      with h | h
    · left
      rw [create_mar_linear_eq, h]
      rfl
    · right
      rw [create_mar_linear_eq, h]
      rfl
  · rcases weighted_sample_bad hk hbad s (df.nRows + missCount p df.nRows)
      with h | h
    · left
      rw [create_mar_quadratic_eq, h]
      rfl
    · right
      rw [create_mar_quadratic_eq, h]
      rfl
  · rcases weighted_sample_bad hk hbad s (df.nRows + missCount p df.nRows)
      with h | h
    · left
      rw [create_nmar_linear_eq, h]
      rfl
    · right
      rw [create_nmar_linear_eq, h]
      rfl
  · rcases weighted_sample_bad hk hbad s (df.nRows + missCount p df.nRows)
      with h | h
    · left
      rw [create_nmar_quadratic_eq, h]
      rfl
    · right
      rw [create_nmar_quadratic_eq, h]
      rfl

/-- Witness for C5 at a concrete table with a negative weight entry. -/
theorem c5_degenerate_weights_error_witness :
    create_mar_column dfNeg incomeN wN linearS (1/2) 42 rng0 =
        .error .negativeWeights ∨
      create_mar_column dfNeg incomeN wN linearS (1/2) 42 rng0 =
        .error .zeroWeights := by
  have hk : 0 < missCount (1/2) dfNeg.nRows := by
    have h1 : missCount (1/2) dfNeg.nRows = 1 := by
      refine missCount_eq_of_mul_eq ?_
      show (1 : ℚ)/2 * ((2 : ℕ) : ℚ) = ((1 : ℕ) : ℚ)
      push_cast
      norm_num
    omega
  refine (c5_degenerate_weights_error dfNeg incomeN wN (1/2) 42 rng0 hk).1 ?_
  left
  refine ⟨-1, ?_, by norm_num⟩
  show (-1 : ℚ) ∈ dfNeg.col wN
  simp [dfNeg, DataFrame.col, List.lookup]

/-- Counterexample to C5 as stated: on a table whose only weight column is
all zero but with requested missing count 0 (`p_missing = 0`), the MAR
generator does not raise — it returns the indicator column `[0]`. -/
theorem c5_counterexample :
    create_mar_column dfZ incomeN wN linearS 0 42 rng0 = .ok [0] := by
  have hk : missCount 0 dfZ.nRows = 0 := by
    refine missCount_eq_of_mul_eq ?_
    show (0 : ℚ) * ((1 : ℕ) : ℚ) = ((0 : ℕ) : ℚ)
    push_cast
    norm_num
  rw [create_mar_linear_eq, hk, sampleKDistinct_zero]
  show Except.ok (indicatorColumn dfZ.nRows []) = Except.ok [0]
  rw [indicatorColumn_nil]
  rfl

/-- C1 (amended): each generator returns an indicator column of length `n`
with exactly `round(p_missing * n)` 1-entries and the rest 0, provided that
many distinct rows are drawable — all `n` rows for MCAR, the rows with
positive weight for MAR/NMAR under nonnegative weights.  A requested count
of 0 yields an all-zero column with no sampling (hence no weight check), and
on any 100-row table MCAR with `p_missing = 0.3` yields exactly 30 ones.
When some rows are drawable but fewer than requested, the resampling loop
never terminates (for every fuel), so no column is returned. -/
theorem c1_generators_count :
    (∀ (df : DataFrame) (mc : String) (p : ℚ) (s : ℕ) (g : Rng),
      missCount p df.nRows ≤ df.nRows →
      ∃ col, create_mcar_column df mc p s g = .ok col ∧
        col.length = df.nRows ∧ col.count 1 = missCount p df.nRows ∧
        col.count 0 = df.nRows - missCount p df.nRows) ∧
    (∀ (df : DataFrame) (mc dep : String) (p : ℚ) (s : ℕ) (g : Rng),
      (df.col dep).length = df.nRows → (∀ a ∈ df.col dep, 0 ≤ a) →
      missCount p df.nRows ≤ (posIdx (df.col dep)).length →
      ∃ col, create_mar_column df mc dep linearS p s g = .ok col ∧
        col.length = df.nRows ∧ col.count 1 = missCount p df.nRows ∧
        col.count 0 = df.nRows - missCount p df.nRows) ∧
    (∀ (df : DataFrame) (mc dep : String) (p : ℚ) (s : ℕ) (g : Rng),
      (df.col dep).length = df.nRows →
      missCount p df.nRows ≤
        (posIdx ((df.col dep).map (fun a => a ^ 2))).length →
      ∃ col, create_mar_column df mc dep quadraticS p s g = .ok col ∧
        col.length = df.nRows ∧ col.count 1 = missCount p df.nRows ∧
        col.count 0 = df.nRows - missCount p df.nRows) ∧
    (∀ (df : DataFrame) (mc : String) (p : ℚ) (s : ℕ) (g : Rng),
      (df.col mc).length = df.nRows → (∀ a ∈ df.col mc, 0 ≤ a) →
      missCount p df.nRows ≤ (posIdx (df.col mc)).length →
      ∃ col, create_nmar_column df mc linearS p s g = .ok col ∧
        col.length = df.nRows ∧ col.count 1 = missCount p df.nRows ∧
        col.count 0 = df.nRows - missCount p df.nRows) ∧
    (∀ (df : DataFrame) (mc : String) (p : ℚ) (s : ℕ) (g : Rng),
      (df.col mc).length = df.nRows →
      missCount p df.nRows ≤
        (posIdx ((df.col mc).map (fun a => a ^ 2))).length →
      ∃ col, create_nmar_column df mc quadraticS p s g = .ok col ∧
        col.length = df.nRows ∧ col.count 1 = missCount p df.nRows ∧
        col.count 0 = df.nRows - missCount p df.nRows) ∧
    (∀ (df : DataFrame) (mc dep : String) (p : ℚ) (s : ℕ) (g : Rng),
      missCount p df.nRows = 0 →
      create_mcar_column df mc p s g = .ok (List.replicate df.nRows 0) ∧
      create_mar_column df mc dep linearS p s g =
        .ok (List.replicate df.nRows 0) ∧
      create_mar_column df mc dep quadraticS p s g =
        .ok (List.replicate df.nRows 0) ∧
      create_nmar_column df mc linearS p s g =
        .ok (List.replicate df.nRows 0) ∧
      create_nmar_column df mc quadraticS p s g =
        .ok (List.replicate df.nRows 0)) ∧
    (∀ (df : DataFrame) (mc : String) (s : ℕ) (g : Rng), df.nRows = 100 →
      ∃ col, create_mcar_column df mc (3/10) s g = .ok col ∧
        col.count 1 = 30) ∧
    (∀ (df : DataFrame) (mc dep : String) (p : ℚ) (s : ℕ) (g : Rng),
      (∀ a ∈ df.col dep, 0 ≤ a) → posIdx (df.col dep) ≠ [] →
      (posIdx (df.col dep)).length < missCount p df.nRows →
      (∀ fuel, sampleKDistinct (weightedDrawOne s (df.col dep))
          (missCount p df.nRows) fuel = .error .nonTermination) ∧
      create_mar_column df mc dep linearS p s g = .error .nonTermination) := by
  refine ⟨?_, ?_, ?_, ?_, ?_, ?_, ?_, ?_⟩
  · intro df mc p s g hk
    exact uniform_gen_counts hk s (df.nRows + missCount p df.nRows)
  · intro df mc dep p s g hw hneg hk
    obtain ⟨col, hok, hrest⟩ := weighted_gen_counts hw hneg hk s
      (df.nRows + missCount p df.nRows)
    exact ⟨col, by rw [create_mar_linear_eq]; exact hok, hrest⟩
  · intro df mc dep p s g hw hk
    have hw' : ((df.col dep).map (fun a => a ^ 2)).length = df.nRows := by
      simpa using hw
    have hneg' : ∀ a ∈ (df.col dep).map (fun a => a ^ 2), 0 ≤ a := by
      intro a ha
      obtain ⟨b, _, rfl⟩ := List.mem_map.mp ha
      positivity
    obtain ⟨col, hok, hrest⟩ := weighted_gen_counts hw' hneg' hk s
      (df.nRows + missCount p df.nRows)
    exact ⟨col, by rw [create_mar_quadratic_eq]; exact hok, hrest⟩
  · intro df mc p s g hw hneg hk
    obtain ⟨col, hok, hrest⟩ := weighted_gen_counts hw hneg hk s
      (df.nRows + missCount p df.nRows)
    exact ⟨col, by rw [create_nmar_linear_eq]; exact hok, hrest⟩
  · intro df mc p s g hw hk
    have hw' : ((df.col mc).map (fun a => a ^ 2)).length = df.nRows := by
      simpa using hw
    have hneg' : ∀ a ∈ (df.col mc).map (fun a => a ^ 2), 0 ≤ a := by
      intro a ha
      obtain ⟨b, _, rfl⟩ := List.mem_map.mp ha
      positivity
    obtain ⟨col, hok, hrest⟩ := weighted_gen_counts hw' hneg' hk s
      (df.nRows + missCount p df.nRows)
    exact ⟨col, by rw [create_nmar_quadratic_eq]; exact hok, hrest⟩
  · intro df mc dep p s g hk0
    refine ⟨?_, ?_, ?_, ?_, ?_⟩
    · show (sampleKDistinct (uniformDrawOne s df.nRows)
          (missCount p df.nRows) _).map (indicatorColumn df.nRows) = _
      rw [hk0, sampleKDistinct_zero]
      show Except.ok (indicatorColumn df.nRows []) = _
      rw [indicatorColumn_nil]
    · rw [create_mar_linear_eq, hk0, sampleKDistinct_zero]
      show Except.ok (indicatorColumn df.nRows []) = _
      rw [indicatorColumn_nil]
    · rw [create_mar_quadratic_eq, hk0, sampleKDistinct_zero]
      show Except.ok (indicatorColumn df.nRows []) = _
      rw [indicatorColumn_nil]
    · rw [create_nmar_linear_eq, hk0, sampleKDistinct_zero]
      show Except.ok (indicatorColumn df.nRows []) = _
      rw [indicatorColumn_nil]
    · rw [create_nmar_quadratic_eq, hk0, sampleKDistinct_zero]
      show Except.ok (indicatorColumn df.nRows []) = _
      rw [indicatorColumn_nil]
  · intro df mc s g h100
    have hk : missCount (3/10) df.nRows = 30 := by
      rw [h100]
      refine missCount_eq_of_mul_eq ?_
      show (3 : ℚ)/10 * ((100 : ℕ) : ℚ) = ((30 : ℕ) : ℚ)
      push_cast
      norm_num
    have hle : missCount (3/10) df.nRows ≤ df.nRows := by
      rw [hk, h100]
      omega
    obtain ⟨col, hok, _, h1, _⟩ := uniform_gen_counts hle s
      (df.nRows + missCount (3/10) df.nRows)
    exact ⟨col, hok, by rw [h1, hk]⟩
  · intro df mc dep p s g hneg hne hlt
    refine ⟨fun fuel => weighted_sample_stuck hneg hne hlt s fuel, ?_⟩
    rw [create_mar_linear_eq, weighted_sample_stuck hneg hne hlt s _]
    rfl

/-- Counterexample to C1 as stated: on a 4-row table whose weight column has
a single positive entry, MAR linear sampling with `p_missing = 1/2` asks for
2 distinct rows but only 1 row is drawable — the notebook's resampling
`while` loop never terminates, so no indicator column with
`round(p_missing * n)` ones is returned. -/
theorem c1_counterexample :
    create_mar_column dfA incomeN wN linearS (1/2) 42 rng0 =
      .error .nonTermination := by
  have hcol : dfA.col wN = [1, 0, 0, 0] := by
    simp [dfA, DataFrame.col, List.lookup]
  have hmc : missCount (1/2) dfA.nRows = 2 := by
    refine missCount_eq_of_mul_eq ?_
    show (1 : ℚ)/2 * ((4 : ℕ) : ℚ) = ((2 : ℕ) : ℚ)
    push_cast
    norm_num
  have hpos : posIdx (dfA.col wN) = [0] := by
    rw [hcol]
    show (List.range 4).filter _ = [0]
    rw [show List.range 4 = [0, 1, 2, 3] from rfl]
    norm_num [List.filter, List.getD_cons_zero, List.getD_cons_succ]
  have hneg : ∀ a ∈ dfA.col wN, 0 ≤ a := by
    rw [hcol]
    intro a ha
    rcases List.mem_cons.mp ha with rfl | ha
    · norm_num
    rcases List.mem_cons.mp ha with rfl | ha
    · norm_num
    rcases List.mem_cons.mp ha with rfl | ha
    · norm_num
    rcases List.mem_cons.mp ha with rfl | ha
    · norm_num
    · simp at ha
  have hne : posIdx (dfA.col wN) ≠ [] := by
    rw [hpos]
    simp
  have hlt : (posIdx (dfA.col wN)).length < missCount (1/2) dfA.nRows := by
    rw [hpos, hmc]
    norm_num
  rw [create_mar_linear_eq, weighted_sample_stuck hneg hne hlt 42 _]
  rfl

/-- Witness for C1 (MCAR conjunct) on a concrete 3-row table with
`p_missing = 1/3`. -/
theorem c1_generators_count_witness :
    ∃ col, create_mcar_column dfW incomeN (1/3) 0 rng0 = .ok col ∧
      col.length = dfW.nRows ∧ col.count 1 = missCount (1/3) dfW.nRows ∧
      col.count 0 = dfW.nRows - missCount (1/3) dfW.nRows := by
  have hk : missCount (1/3) dfW.nRows = 1 := by
    refine missCount_eq_of_mul_eq ?_
    show (1 : ℚ)/3 * ((3 : ℕ) : ℚ) = ((1 : ℕ) : ℚ)
    push_cast
    norm_num
  exact c1_generators_count.1 dfW incomeN (1/3) 0 rng0
    (by rw [hk]; show 1 ≤ 3; omega)

/-- Evaluation of a comprehension over `range n` at a valid row. -/
theorem map_range_getD {f : ℕ → ℚ} {n i : ℕ} (hi : i < n) :
    ((List.range n).map f).getD i 0 = f i := by
  have hlen : i < ((List.range n).map f).length := by simpa using hi
  rw [List.getD_eq_get _ _ hlen]
  simp

/-- C3: mean, median and mode imputation return a column of length
`df.shape[0]` that keeps the stored value of every row whose indicator is 0
and sets every row whose indicator is 1 to the respective summary statistic
of the column — the same single statistic for all imputed rows of a call. -/
theorem c3_single_value_imputation (df : DataFrame) (ic mc : String) (i : ℕ)
    (hi : i < df.nRows) :
    (impute_mean df ic mc).length = df.nRows ∧
    (impute_median df ic mc).length = df.nRows ∧
    (impute_mode df ic mc).length = df.nRows ∧
    (df.cell i mc = 0 →
      (impute_mean df ic mc).getD i 0 = df.cell i ic ∧
      (impute_median df ic mc).getD i 0 = df.cell i ic ∧
      (impute_mode df ic mc).getD i 0 = df.cell i ic) ∧
    (df.cell i mc = 1 →
      (impute_mean df ic mc).getD i 0 = npMean (df.col ic) ∧
      (impute_median df ic mc).getD i 0 = npMedian (df.col ic) ∧
      (impute_mode df ic mc).getD i 0 = statsMode (df.col ic)) := by
  refine ⟨by simp [impute_mean], by simp [impute_median],
    by simp [impute_mode], fun h0 => ?_, fun h1 => ?_⟩
  · rw [impute_mean, impute_median, impute_mode,
      map_range_getD hi, map_range_getD hi, map_range_getD hi]
    simp [h0]
  · have hne : ¬ df.cell i mc = 0 := by rw [h1]; exact one_ne_zero
    rw [impute_mean, impute_median, impute_mode,
      map_range_getD hi, map_range_getD hi, map_range_getD hi]
    simp [hne]

/-- Witness for C3 on a concrete table, observed row. -/
theorem c3_single_value_imputation_witness :
    (impute_mean dfSmall ageN mN).getD 0 0 = dfSmall.cell 0 ageN ∧
    (impute_median dfSmall ageN mN).getD 0 0 = dfSmall.cell 0 ageN ∧
    (impute_mode dfSmall ageN mN).getD 0 0 = dfSmall.cell 0 ageN :=
  (c3_single_value_imputation dfSmall ageN mN 0 (by show 0 < 2; omega)).2.2.2.1
    (by rfl)

/-- C9: the summary statistic each single-value imputer uses is computed
over the entire stored column, flagged rows included; whenever that differs
from the observed-rows-only statistic, the imputed value differs from the
statistic a missing-data analysis would use. -/
theorem c9_full_column_statistic (df : DataFrame) (ic mc : String) (i : ℕ)
    (hi : i < df.nRows) (hmiss : df.cell i mc = 1) :
    ((impute_mean df ic mc).getD i 0 = npMean (df.col ic) ∧
      (npMean (df.col ic) ≠ npMean (observedCol df ic mc) →
        (impute_mean df ic mc).getD i 0 ≠ npMean (observedCol df ic mc))) ∧
    ((impute_median df ic mc).getD i 0 = npMedian (df.col ic) ∧
      (npMedian (df.col ic) ≠ npMedian (observedCol df ic mc) →
        (impute_median df ic mc).getD i 0 ≠
          npMedian (observedCol df ic mc))) ∧
    ((impute_mode df ic mc).getD i 0 = statsMode (df.col ic) ∧
      (statsMode (df.col ic) ≠ statsMode (observedCol df ic mc) →
        (impute_mode df ic mc).getD i 0 ≠
          statsMode (observedCol df ic mc))) := by
  have hne : ¬ df.cell i mc = 0 := by rw [hmiss]; exact one_ne_zero
  have hmean : (impute_mean df ic mc).getD i 0 = npMean (df.col ic) := by
    rw [impute_mean, map_range_getD hi]
    simp [hne]
  have hmedian : (impute_median df ic mc).getD i 0 = npMedian (df.col ic) := by
    rw [impute_median, map_range_getD hi]
    simp [hne]
  have hmode : (impute_mode df ic mc).getD i 0 = statsMode (df.col ic) := by
    rw [impute_mode, map_range_getD hi]
    simp [hne]
  exact ⟨⟨hmean, fun h => by rw [hmean]; exact h⟩,
    ⟨hmedian, fun h => by rw [hmedian]; exact h⟩,
    ⟨hmode, fun h => by rw [hmode]; exact h⟩⟩

/-- Witness for C9 on a concrete table, flagged row. -/
theorem c9_full_column_statistic_witness :
    (impute_mean dfSmall ageN mN).getD 1 0 = npMean (dfSmall.col ageN) :=
  (c9_full_column_statistic dfSmall ageN mN 1 (by show 1 < 2; omega)
    (by rfl)).1.1

/-- Expansion of a sum of squared deviations around an arbitrary center. -/
theorem ss_expand (l : List ℚ) (c : ℚ) :
    (l.map (fun z => (z - c) ^ 2)).sum =
      (l.map (fun z => z ^ 2)).sum - 2 * c * l.sum + l.length * c ^ 2 := by
  induction l with
  | nil => simp
  | cons a t ih =>
    simp only [List.map_cons, List.sum_cons, ih, List.length_cons]
    push_cast
    ring

/-- The mean minimizes the sum of squared deviations. -/
theorem ss_mean_le (l : List ℚ) (c : ℚ) :
    (l.map (fun z => (z - npMean l) ^ 2)).sum ≤
      (l.map (fun z => (z - c) ^ 2)).sum := by
  rcases eq_or_ne l [] with rfl | hne
  · simp
  · have hn : ((l.length : ℚ)) ≠ 0 := by
      have := List.length_pos.mpr hne
      positivity
    have key : (l.map (fun z => (z - c) ^ 2)).sum =
        (l.map (fun z => (z - npMean l) ^ 2)).sum +
          l.length * (c - npMean l) ^ 2 := by
      rw [ss_expand, ss_expand, npMean]
      field_simp
      ring
    have hsq : 0 ≤ (l.length : ℚ) * (c - npMean l) ^ 2 := by positivity
    linarith

/-- Replacing entries by the center never increases the sum of squared
deviations around that center. -/
theorem ss_pointwise_le {x y : List ℚ} {c : ℚ}
    (h : List.Forall₂ (fun a b => b = a ∨ b = c) x y) :
    (y.map (fun z => (z - c) ^ 2)).sum ≤
      (x.map (fun z => (z - c) ^ 2)).sum := by
  induction h with
  | nil => exact le_refl 0
  | @cons a b l1 l2 ha htl ih =>
    simp only [List.map_cons, List.sum_cons]
    have hhead : (b - c) ^ 2 ≤ (a - c) ^ 2 := by
      rcases ha with h | h
      · rw [h]
      · rw [h]
        have hc : ((c - c) ^ 2 : ℚ) = 0 := by ring
        rw [hc]
        positivity
    linarith

/-- Bessel-corrected sample variance never increases when entries of a
column are replaced by the column mean. -/
theorem sampleVar_le {x y : List ℚ}
    (h : List.Forall₂ (fun a b => b = a ∨ b = npMean x) x y) :
    sampleVar y ≤ sampleVar x := by
  have hlen : x.length = y.length := List.Forall₂.length_eq h
  have h1 : (y.map (fun z => (z - npMean y) ^ 2)).sum ≤
      (y.map (fun z => (z - npMean x) ^ 2)).sum := ss_mean_le y (npMean x)
  have h2 : (y.map (fun z => (z - npMean x) ^ 2)).sum ≤
      (x.map (fun z => (z - npMean x) ^ 2)).sum := ss_pointwise_le h
  have hss : (y.map (fun z => (z - npMean y) ^ 2)).sum ≤
      (x.map (fun z => (z - npMean x) ^ 2)).sum := le_trans h1 h2
  rw [sampleVar, sampleVar, hlen]
  rcases Nat.lt_or_ge y.length 2 with hlt | hge
  · have hcase : y.length = 0 ∨ y.length = 1 := by omega
    rcases hcase with h0 | h1
    · have hxnil : x = [] := List.length_eq_zero.mp (by omega)
      have hynil : y = [] := List.length_eq_zero.mp h0
      subst hxnil
      subst hynil
      simp
    · have hd : ((1 : ℕ) : ℚ) - 1 = 0 := by norm_num
      rw [h1, hd, div_zero, div_zero]
  · have hpos : (0 : ℚ) < (y.length : ℚ) - 1 := by
      have h2 : (2 : ℚ) ≤ (y.length : ℚ) := by exact_mod_cast hge
      linarith
    exact (div_le_div_right hpos).mpr hss

/-- The mean-imputed column relates pointwise to the stored column: every
entry is the stored value or the full-column mean. -/
theorem forall2_impute_mean (df : DataFrame) (ic mc : String)
    (hx : (df.col ic).length = df.nRows) :
    List.Forall₂ (fun a b => b = a ∨ b = npMean (df.col ic))
      (df.col ic) (impute_mean df ic mc) := by
  rw [List.forall₂_iff_get]
  refine ⟨by simp [impute_mean, hx], ?_⟩
  intro i h1 h2
  have hi : i < df.nRows := by rwa [hx] at h1
  have hget : (impute_mean df ic mc).get ⟨i, h2⟩ =
      (impute_mean df ic mc).getD i 0 :=
    (List.getD_eq_get _ _ h2).symm
  rw [hget, impute_mean, map_range_getD hi]
  by_cases h0 : df.cell i mc = 0
  · left
    rw [if_pos h0, DataFrame.cell, List.getD_eq_get _ _ h1]
  · right
    rw [if_neg h0]

/-- C7 (amended): mean imputation never inflates the Bessel-corrected sample
standard deviation: the standard deviation of the observed-plus-imputed
column is at most that of the stored column, for every indicator column.
(The analogous statement for median and mode imputation is refuted by the
counterexample.) -/
theorem c7_mean_imputation_std_le (df : DataFrame) (ic mc : String)
    (hx : (df.col ic).length = df.nRows) (hn : 2 ≤ df.nRows) :
    Real.sqrt ((sampleVar (impute_mean df ic mc) : ℚ) : ℝ) ≤
      Real.sqrt ((sampleVar (df.col ic) : ℚ) : ℝ) := by
  have h := sampleVar_le (forall2_impute_mean df ic mc hx)
  exact Real.sqrt_le_sqrt (by exact_mod_cast h)

/-- Witness for C7 on a concrete table. -/
theorem c7_mean_imputation_std_le_witness :
    Real.sqrt ((sampleVar (impute_mean dfSmall ageN mN) : ℚ) : ℝ) ≤
      Real.sqrt ((sampleVar (dfSmall.col ageN) : ℚ) : ℝ) :=
  c7_mean_imputation_std_le dfSmall ageN mN (by rfl) (by show 2 ≤ 2; omega)

/-- Counterexample to C7 as stated: on the column `[0, 2, 3, 9]` with row 2
flagged missing (rate 1/4 > 0), median imputation replaces 3 by the
full-column median 5/2 and the Bessel-corrected sample standard deviation
rises from √15 to √(731/48) — the imputed column's standard deviation
exceeds the true column's. -/
theorem c7_counterexample :
    ¬ (Real.sqrt ((sampleVar (impute_median dfB ageN mN) : ℚ) : ℝ) ≤
        Real.sqrt ((sampleVar (dfB.col ageN) : ℚ) : ℝ)) := by
  have hb1 : (mN == ageN) = false := by decide
  have hcol : dfB.col ageN = [0, 2, 3, 9] := by
    simp [dfB, DataFrame.col, List.lookup]
  have hmed : npMedian [(0 : ℚ), 2, 3, 9] = 5/2 := by
    norm_num [npMedian, sortAsc, insertSorted]
  have himp : impute_median dfB ageN mN = [0, 2, 5/2, 9] := by
    rw [impute_median]
    rw [show dfB.nRows = 4 from rfl,
      show List.range 4 = [0, 1, 2, 3] from rfl]
    norm_num [DataFrame.cell, DataFrame.col, dfB, List.lookup, hb1, hmed]
  have hvarx : sampleVar (dfB.col ageN) = 15 := by
    rw [hcol]
    norm_num [sampleVar, npMean]
  have hvary : sampleVar (impute_median dfB ageN mN) = 731/48 := by
    rw [himp]
    norm_num [sampleVar, npMean]
  rw [hvarx, hvary]
  refine not_le.mpr ?_
  refine Real.sqrt_lt_sqrt (by positivity) ?_
  exact_mod_cast (by norm_num : (15 : ℚ) < 731/48)

/-- Evaluation of a comprehension over `range n` at a valid row, for any
element type. -/
theorem map_range_getD' {α : Type} (d : α) {f : ℕ → α} {n i : ℕ}
    (hi : i < n) : ((List.range n).map f).getD i d = f i := by
  have hlen : i < ((List.range n).map f).length := by simpa using hi
  rw [List.getD_eq_get _ _ hlen]
  simp

/-- A successful run of the output comprehension returns each succeeding
entry's value at its own row. -/
theorem collectSeq_getD {es : List (Except PyError ℚ)} {l : List ℚ}
    (h : collectSeq es = .ok l) :
    ∀ i, i < es.length → es.getD i (.ok 0) = .ok (l.getD i 0) := by
  induction es generalizing l with
  | nil =>
    intro i hi
    simp at hi
  | cons e rest ih =>
    intro i hi
    cases e with
    | error err =>
      rw [collectSeq] at h
      cases h
    | ok v =>
      rw [collectSeq] at h
      cases hrest : collectSeq rest with
      | error err =>
        rw [hrest] at h
        cases h
      | ok tl =>
        rw [hrest] at h
        have hl : v :: tl = l := by simpa using h
        subst hl
        cases i with
        | zero => simp
        | succ j =>
          simp only [List.getD_cons_succ]
          exact ih hrest j (by simpa using hi)

/-- C4 assessment: for any fitted models, any target, feature and indicator
column names, every row the hardcoded `'age_missingness'` column marks
observed receives the hardcoded `'age'` column's value in the output —
`regression_imputation` ignores its `impute_column`, `X_columns` and
`missingness_column` arguments when building the result, while the fit is
run on `df[X_columns]` over all `df.shape[0]` rows, observed or not. -/
theorem c4_regression_hardcoded
    (linFit logFit : List (List ℚ) → List ℚ → Except PyError FittedModel)
    (df : DataFrame) (ic : String) (Xc : List String) (mc : String)
    (i : ℕ) (hi : i < df.nRows) (h0 : df.cell i ageMissN = 0)
    (col : List ℚ)
    (hok : regression_imputation linFit logFit df ic Xc mc linearS =
      .ok col) :
    col.getD i 0 = df.cell i ageN ∧ (trainX df Xc).length = df.nRows := by
  rw [regression_imputation, if_pos (Or.inl rfl), if_pos rfl] at hok
  refine ⟨?_, by simp [trainX]⟩
  cases heq : linFit (trainX df Xc) (df.col ic) with
  | error e =>
    rw [heq] at hok
    cases hok
  | ok m =>
    rw [heq] at hok
    have hok' : regOutput df m = .ok col := hok
    rw [regOutput] at hok'
    have hget := collectSeq_getD hok' i (by simpa using hi)
    rw [map_range_getD' (Except.ok 0) hi, if_pos h0] at hget
    have := (Except.ok.injEq _ _).mp hget
    exact this.symm

/-- Witness for C4 at the failing input: imputing `income` with the `income`
indicator and the notebook's three feature columns still returns the `age`
value on row 1 (whose income is flagged missing but whose age is observed),
and that value differs from the stored income. -/
theorem c4_regression_hardcoded_witness :
    regression_imputation constFit constFit df6 incomeN xcols3 incomeMissN
        linearS = .ok rc4 ∧
      rc4.getD 1 0 = df6.cell 1 ageN ∧
      df6.cell 1 incomeMissN = 1 ∧ df6.cell 1 ageN ≠ df6.cell 1 incomeN := by
  have hok : regression_imputation constFit constFit df6 incomeN xcols3
      incomeMissN linearS = .ok rc4 := rfl
  refine ⟨hok, ?_, rfl, ?_⟩
  · exact (c4_regression_hardcoded constFit constFit df6 incomeN xcols3
      incomeMissN 1 (by show 1 < 2; omega) rfl rc4 hok).1
  · show (40 : ℚ) ≠ 200
    norm_num

/-- C6 assessment: `regression_imputation` performs no check on the number
of observed rows (nor does it restrict the fit to them): on the table
`df6`, where only one row is observed for `age`, calling it with the
notebook's three feature columns returns an imputed column — never an
error — whenever the fitted estimator is produced, as sklearn's
`LinearRegression.fit` does on any nonempty data; sklearn records
`n_features_in_ = 3` from the width of that design, so every
`model.predict` call on the hardcoded three-feature row succeeds. -/
theorem c6_no_failure_single_observed_row
    (linFit logFit : List (List ℚ) → List ℚ → Except PyError FittedModel)
    (m : FittedModel)
    (hfit : linFit (trainX df6 xcols3) (df6.col ageN) = .ok m)
    (harity : m.nFeatures = 3) :
    (observedCol df6 ageN ageMissN).length = 1 ∧
      regression_imputation linFit logFit df6 ageN xcols3 ageMissN linearS =
        .ok [m.predict (hardcodedRow df6 0), df6.cell 1 ageN] := by
  refine ⟨rfl, ?_⟩
  rw [regression_imputation, if_pos (Or.inl rfl), if_pos rfl, hfit]
  have hp : predictOne m (hardcodedRow df6 0) =
      .ok (m.predict (hardcodedRow df6 0)) := by
    rw [predictOne, if_pos (by rw [harity]; rfl)]
  have hre : regOutput df6 m =
      collectSeq [predictOne m (hardcodedRow df6 0),
        .ok (df6.cell 1 ageN)] := rfl
  show regOutput df6 m = _
  rw [hre, hp]
  rfl

/-- Witness for C6 with the trivial estimator. -/
theorem c6_no_failure_single_observed_row_witness :
    (observedCol df6 ageN ageMissN).length = 1 ∧
      regression_imputation constFit constFit df6 ageN xcols3 ageMissN
        linearS =
        .ok [FittedModel.predict ⟨3, fun _ => 0⟩ (hardcodedRow df6 0),
          df6.cell 1 ageN] :=
  c6_no_failure_single_observed_row constFit constFit ⟨3, fun _ => 0⟩ rfl rfl
